import Mathlib

/-!
Shallow embedding of the `vaziolabs/crawler` dependency-crawler core
(`src/crawler.c`, `src/syntaxes.c`) and proofs about its behaviour.

C strings are modelled as Lean `String`s (a nullable `char*` field becomes
`Option String`), NULL-terminated linked lists become Lean `List`s, and the
mutable dependency graph becomes an explicit `List Dependency` threaded through
the crawl functions.  Code that lives in files outside this source tree
(`analyzers.c`, `grammars.c`) is either taken as a parameter (the three layer
extractors) or modelled from the spec, as flagged in each doc comment.
-/

namespace Crawler

/-- The `LanguageType` enum of syntaxes.h (values 0..7). -/
inductive LanguageType where
  | LANG_RUST
  | LANG_C
  | LANG_JAVASCRIPT
  | LANG_GO
  | LANG_PYTHON
  | LANG_JAVA
  | LANG_PHP
  | LANG_RUBY
deriving DecidableEq, Repr

/-- The `AnalysisLayer` enum of syntaxes.h. -/
inductive AnalysisLayer where
  | LAYER_MODULE
  | LAYER_STRUCT
  | LAYER_METHOD
deriving DecidableEq, Repr

open LanguageType AnalysisLayer

/-- ASCII `tolower` as used by the C code (C locale): only A-Z change. -/
def lowerChar (c : Char) : Char :=
  if 'A' ≤ c ∧ c ≤ 'Z' then Char.ofNat (c.toNat + 32) else c

/-- Characters after the last `'.'` of a string, or `none` when it has no dot:
the result of `strrchr(s, '.')` followed by `ext++`. -/
def extAfterLastDot (s : String) : Option (List Char) :=
  let r := s.data.reverse
  if r.contains '.' then some ((r.takeWhile (fun c => c ≠ '.')).reverse) else none

/-- The lowercased, 31-character-truncated extension buffer `ext_lower` that
`languageType` builds (`char ext_lower[32]` filled by `tolower`). -/
def extLowerBuf (ext : List Char) : List Char :=
  (ext.take 31).map lowerChar

/-- The extension-to-language comparison chain of `languageType`
(syntaxes.c:29-54), on the already lowercased buffer. -/
def langOfExtLower (e : List Char) : LanguageType :=
  if e = "rs".data then LANG_RUST
  else if e = "c".data ∨ e = "h".data ∨ e = "cpp".data ∨ e = "hpp".data then LANG_C
  else if e = "js".data ∨ e = "jsx".data ∨ e = "ts".data ∨ e = "tsx".data then LANG_JAVASCRIPT
  else if e = "go".data then LANG_GO
  else if e = "py".data then LANG_PYTHON
  else if e = "java".data then LANG_JAVA
  else if e = "php".data then LANG_PHP
  else if e = "rb".data then LANG_RUBY
  else LANG_RUST

/-- The `languageType` (syntaxes.c:10-55): classify a file name by its final
extension; a name with no `'.'` and an unrecognized extension both fall back
to `LANG_RUST`. -/
def languageType (filename : String) : LanguageType :=
  match extAfterLastDot filename with
  | none => LANG_RUST
  | some ext => langOfExtLower (extLowerBuf ext)

/-- The `Method` (syntaxes.h): the fields the claims touch.  The `next` sibling
pointer of the C linked list is rendered by putting methods in a `List`;
nullable `char*` fields become `Option String`. -/
structure Method where
  name : String
  return_type : Option String
  dependencies : Option String
deriving DecidableEq, Repr

/-- The `Structure` (syntaxes.h): name and the raw `dependencies` text that the
cross-reference resolver rewrites; the `next` pointer becomes list structure. -/
structure Structure where
  name : String
  dependencies : Option String
deriving DecidableEq, Repr

/-- The `ExtractedDependency` (syntaxes.h): the transient record consumed by
`create_dependency_graph`; `structures`/`methods` linked lists become lists. -/
structure ExtractedDependency where
  file_path : String
  target : Option String
  module_name : Option String
  structures : List Structure
  methods : List Method
  layer : AnalysisLayer
deriving Repr

/-- The `Dependency` (syntaxes.h): one persisted node of the crawler's graph; the
graph's `next` chain is rendered by keeping nodes in a `List Dependency`
whose first element is the head `crawler->dependency_graph`. -/
structure Dependency where
  source : String
  target : Option String
  language : LanguageType
  level : AnalysisLayer
  methods : List Method
  method_count : Nat
deriving DecidableEq, Repr

/-- The `Relationship` (syntaxes.h): an export-facing (from, to, kind, layer) tuple. -/
structure Relationship where
  from_ : String
  to_ : String
  relationship_type : String
  layer : AnalysisLayer
deriving DecidableEq, Repr

/-- The `DependencyGraph` (syntaxes.h): the flat relationship array. -/
structure DependencyGraph where
  relationships : List Relationship
deriving DecidableEq, Repr

/-- The `startsAt needle hay`: the needle matches at the front of the haystack
(the inner comparison loop of C `strstr`). -/
def startsAt (needle hay : List Char) : Bool :=
  match needle, hay with
  | [], _ => true
  | _ :: _, [] => false
  | a :: ns, b :: hs => a == b && startsAt ns hs

/-- C `strstr(hay, needle) != NULL`: the needle occurs somewhere in the
haystack (an empty needle always matches). -/
def strstrB (hay needle : List Char) : Bool :=
  startsAt needle hay ||
    match hay with
    | [] => false
    | _ :: t => strstrB t needle

/-- The relationships `create_dependency_graph` (syntaxes.c:108-164) emits for
one `ExtractedDependency`: an "imports" tuple when `module_name` is set, one
"inherits" tuple per structure with a non-null `dependencies`, one "calls"
tuple per method with a non-null `dependencies`. -/
def relsOfDep (dep : ExtractedDependency) : List Relationship :=
  (match dep.module_name with
   | some m => [⟨dep.file_path, m, "imports", LAYER_MODULE⟩]
   | none => []) ++
  (dep.structures.filterMap fun s =>
    s.dependencies.map fun d => ⟨s.name, d, "inherits", LAYER_STRUCT⟩) ++
  (dep.methods.filterMap fun mth =>
    mth.dependencies.map fun d => ⟨mth.name, d, "calls", LAYER_METHOD⟩)

/-- The `create_dependency_graph` (syntaxes.c:108-164): `NULL` for an empty input
(the `!deps || dep_count <= 0` guard), otherwise the concatenation of each
record's relationships in input order. -/
def create_dependency_graph (deps : List ExtractedDependency) : Option DependencyGraph :=
  if deps.isEmpty then none
  else some ⟨(deps.map relsOfDep).flatten⟩

/-- One `fprintf` line of the DOT loop in `exportGraph` (syntaxes.c:176-180). -/
def dotLine (r : Relationship) : String :=
  "  \"" ++ r.from_ ++ "\" -> \"" ++ r.to_ ++ "\" [label=\"" ++ r.relationship_type ++ "\"];\n"

/-- The bytes `exportGraph` (syntaxes.c:167-198) writes for format `"dot"`:
header line, then the relationship loop's `fprintf` appends in stored order,
then the closing brace line. -/
def exportGraphDot (graph : DependencyGraph) : String :=
  graph.relationships.foldl (fun acc r => acc ++ dotLine r) "digraph Dependencies \x7b\n"
    ++ "\x7d\n"

/-- The `AnalysisConfig` (syntaxes.h:141-147); the C `int` flags become `Bool`. -/
structure AnalysisConfig where
  analyzeModules : Bool
  analyze_structures : Bool
  analyzeMethods : Bool
  max_depth : Int
  follow_external : Bool
deriving DecidableEq, Repr

/-- The fields of an `ExtractedDependency` node returned by `analyzeModule`
that `processLayer` reads: its `file_path` and its captured `target`. -/
structure ModuleRecord where
  file_path : Option String
  target : Option String
deriving DecidableEq, Repr

/-- The three layer extractors.  They are implemented in `analyzers.c`, which
is not part of this source tree, so the crawl functions are parameterized over
them; every theorem below holds for arbitrary extractors.  The `grammar`
argument of each C call is determined by the `LanguageType`
(`languageGrammars(lang_type)`), so the model passes the language itself. -/
structure Extractors where
  analyzeModule : String → LanguageType → List ModuleRecord
  analyze_structure : String → String → LanguageType → List Structure
  analyzeMethod : String → String → LanguageType → List Method

/-- Modelled from the spec: the persisted node built from a transient record by
`create_dependency_from_extracted` / `graphDependency`, both defined in
`analyzers.c` which is not in this source tree.  Spec §4.5: "Structure/Module
merges copy the minimal fields needed (file path, target/structures) into a
newly allocated persisted node."  `language` stays at its `memset`-zero value
`LANG_RUST` since `processLayer` never sets it on the transient record. -/
def nodeOfExtracted (d : ExtractedDependency) : Dependency :=
  { source := d.file_path, target := d.target, language := LANG_RUST,
    level := d.layer, methods := [], method_count := 0 }

/-- Modelled from the spec: `create_dependency_from_extracted` (analyzers.c,
not in this tree).  Spec §4.5: "If the graph is empty, the first extracted
record becomes the root." -/
def create_dependency_from_extracted (d : ExtractedDependency) : Dependency :=
  nodeOfExtracted d

/-- Modelled from the spec: `graphDependency` (analyzers.c, not in this tree).
Spec §4.5: "Otherwise, new records are prepended (most-recently-processed file
is nearest the head)." -/
def graphDependency (graph : List Dependency) (d : ExtractedDependency) : List Dependency :=
  nodeOfExtracted d :: graph

/-- The merge call sites of `processLayer` (crawler.c:129-135 and 202-208): an
empty graph is replaced by the node from `create_dependency_from_extracted`,
otherwise `graphDependency` adds the node. -/
def addToGraph (graph : List Dependency) (d : ExtractedDependency) : List Dependency :=
  match graph with
  | [] => [create_dependency_from_extracted d]
  | _ => graphDependency graph d

/-- One iteration of the cross-reference loop of `processLayer`
(crawler.c:169-196): when the module record's `target` is non-null, the
structure's `dependencies` is non-null and `strstr` finds the target inside
it, the dependencies text is rewritten to `"<file_path>:<dependencies>"`
(a NULL `file_path` prints as the empty string through `snprintf`). -/
def resolveStep (s : Structure) (rec : ModuleRecord) : Structure :=
  match rec.target, s.dependencies with
  | some t, some d =>
    if strstrB d.data t.data then
      { s with dependencies := some ((rec.file_path.getD "") ++ ":" ++ d) }
    else s
  | _, _ => s

/-- One resolver pass over a structure (crawler.c:166-197): fold `resolveStep`
over all module records re-extracted from the same file's text. -/
def resolvePass (recs : List ModuleRecord) (s : Structure) : Structure :=
  recs.foldl resolveStep s

/-- Modelled from the spec: `countMethods` (analyzers.c, not in this tree).
Spec §4.5: "Count of merged method nodes is tracked per Dependency for
reporting" — the length of the method list handed over. -/
def countMethods (ms : List Method) : Nat := ms.length

/-- The METHOD-layer node `graphMethods` builds (crawler.c:657-668): `memset`
zero leaves `target` NULL and `language` 0, the methods list is taken over,
`method_count` is `countMethods` of it. -/
def methodNode (file_path : String) (methods : List Method) : Dependency :=
  { source := file_path, target := none, language := LANG_RUST,
    level := LAYER_METHOD, methods := methods, method_count := countMethods methods }

/-- The `graphMethods` (crawler.c:651-680): a no-op on a NULL methods list (the
`!methods` guard; a NULL crawler or file path is not representable here),
otherwise the new node becomes the root of an empty graph or is prepended in
front of the previous head. -/
def graphMethods (graph : List Dependency) (file_path : String)
    (methods : List Method) : List Dependency :=
  match methods with
  | [] => graph
  | _ =>
    match graph with
    | [] => [methodNode file_path methods]
    | _ => methodNode file_path methods :: graph

/-- The module block of `processLayer` (crawler.c:106-141): when module
analysis is on, each record extracted by `analyzeModule` is copied into a
transient MODULE-layer `ExtractedDependency` and merged into the graph. -/
def moduleStage (E : Extractors) (cfg : AnalysisConfig) (filepath content : String)
    (lang : LanguageType) (graph : List Dependency) : List Dependency :=
  if cfg.analyzeModules then
    (E.analyzeModule content lang).foldl
      (fun g rec => addToGraph g
        { file_path := filepath, target := rec.target, module_name := none,
          structures := [], methods := [], layer := LAYER_MODULE }) graph
  else graph

/-- The structure block of `processLayer` (crawler.c:143-212): when structure
analysis is on and the extractor finds structures, the cross-reference
resolver runs over each structure against the re-extracted module records and
one STRUCT-layer transient record for the file is merged into the graph. -/
def structStage (E : Extractors) (cfg : AnalysisConfig) (filepath content : String)
    (lang : LanguageType) (graph : List Dependency) : List Dependency :=
  if cfg.analyze_structures then
    match E.analyze_structure content filepath lang with
    | [] => graph
    | structs =>
      addToGraph graph
        { file_path := filepath, target := none, module_name := none,
          structures := structs.map (resolvePass (E.analyzeModule content lang)),
          methods := [], layer := LAYER_STRUCT }
  else graph

/-- The method block of `processLayer` (crawler.c:214-225): when method
analysis is on and the extractor finds methods, `graphMethods` takes
ownership of them. -/
def methodStage (E : Extractors) (cfg : AnalysisConfig) (filepath content : String)
    (lang : LanguageType) (graph : List Dependency) : List Dependency :=
  if cfg.analyzeMethods then
    match E.analyzeMethod filepath content lang with
    | [] => graph
    | ms => graphMethods graph filepath ms
  else graph

/-- The `processLayer` (crawler.c:96-228): the three analysis blocks in source
order — modules, then structures, then methods. -/
def processLayer (E : Extractors) (cfg : AnalysisConfig) (filepath content : String)
    (lang : LanguageType) (graph : List Dependency) : List Dependency :=
  methodStage E cfg filepath content lang
    (structStage E cfg filepath content lang
      (moduleStage E cfg filepath content lang graph))

/-- The extension denylist of `processFile` (crawler.c:243-253); `strcasecmp`
comparison is modelled by lowercasing the extension first, so `"LICENSE"` is
listed lowercased. -/
def denylistExts : List (List Char) :=
  ["txt", "md", "json", "yml", "yaml", "xml", "csv", "log",
   "license", "gitignore", "lock"].map String.data

/-- The `processFile` (crawler.c:231-297): skip a path with no `'.'`, skip a
denylisted extension, give up when `fopen` fails (`readable = false`),
otherwise run `processLayer` on the file's content under the language of
`languageType`.  The `languageGrammars` NULL-check never fires because
patterns.h provides a grammar for every `LanguageType`. -/
def processFile (E : Extractors) (cfg : AnalysisConfig) (file_path : String)
    (readable : Bool) (content : String) (graph : List Dependency) : List Dependency :=
  match extAfterLastDot file_path with
  | none => graph
  | some ext =>
    if denylistExts.contains (ext.map lowerChar) then graph
    else if !readable then graph
    else processLayer E cfg file_path content (languageType file_path) graph

mutual

/-- What the crawl finds at one path: a regular file (with whether `fopen`
succeeds and its content), a directory (with whether `opendir` succeeds and
its entries), a path whose `stat` fails, or a non-regular non-directory
entry. -/
inductive FSEntry where
  | file (readable : Bool) (content : String) : FSEntry
  | dir (openable : Bool) (entries : EntryList) : FSEntry
  | statFail : FSEntry
  | other : FSEntry

/-- The `readdir` stream of a directory: a list of (name, entry) pairs. -/
inductive EntryList where
  | nil : EntryList
  | cons (name : String) (entry : FSEntry) (rest : EntryList) : EntryList

end

/-- Characters after the last `'/'` of a path, or the path itself: the
`dir_name` computation of `crawlDir` (crawler.c:330-331). -/
def baseName (s : String) : String :=
  let r := s.data.reverse
  if r.contains '/' then ⟨(r.takeWhile (fun c => c ≠ '/')).reverse⟩ else s

/-- The directory denylist of `crawlDir` (crawler.c:333-338). -/
def denylistDirs : List String :=
  ["node_modules", ".git", "build", "dist", "target", "vendor"]

/-- The `entry->d_name[0] == '.'` (crawler.c:347). -/
def startsWithDot (s : String) : Bool :=
  match s.data with
  | '.' :: _ => true
  | _ => false

mutual

/-- The `crawlDir` (crawler.c:300-364): a path whose `stat` fails is skipped; a
regular file goes to `processFile`; a directory whose `opendir` fails or
whose name is denylisted is skipped; otherwise every entry is visited;
anything else (neither regular file nor directory) is skipped. -/
def crawlDir (E : Extractors) (cfg : AnalysisConfig) (path : String)
    (e : FSEntry) (graph : List Dependency) : List Dependency :=
  match e with
  | .statFail => graph
  | .file readable content => processFile E cfg path readable content graph
  | .other => graph
  | .dir openable entries =>
    if !openable then graph
    else if denylistDirs.contains (baseName path) then graph
    else crawlEntries E cfg path entries graph

/-- The `readdir` loop of `crawlDir` (crawler.c:344-358): hidden entries and
`".."` are skipped, every other entry is crawled at `path ++ "/" ++ name`. -/
def crawlEntries (E : Extractors) (cfg : AnalysisConfig) (path : String)
    (es : EntryList) (graph : List Dependency) : List Dependency :=
  match es with
  | .nil => graph
  | .cons name entry rest =>
    let g1 := if startsWithDot name || name == ".." then graph
              else crawlDir E cfg (path ++ "/" ++ name) entry graph
    crawlEntries E cfg path rest g1

end

/-- The `crawlDeps` (crawler.c:367-382): crawl each root in order (a NULL root
pointer, skipped by the C loop, is not representable here). -/
def crawlDeps (E : Extractors) (cfg : AnalysisConfig)
    (roots : List (String × FSEntry)) (graph : List Dependency) : List Dependency :=
  roots.foldl (fun g r => crawlDir E cfg r.1 r.2 g) graph

/-- The default configuration installed by `create_crawler` when none is given
(crawler.c:49-55): all three layers on, `max_depth = -1`, no external follow. -/
def defaultAnalysisConfig : AnalysisConfig :=
  { analyzeModules := true, analyze_structures := true, analyzeMethods := true,
    max_depth := -1, follow_external := false }

/-- Extractors that find nothing, used to instantiate the
extractor-parametric theorems at concrete inputs. -/
def noExtractors : Extractors :=
  { analyzeModule := fun _ _ => [],
    analyze_structure := fun _ _ _ => [],
    analyzeMethod := fun _ _ _ => [] }

/-- The lowercased extensions `languageType` (syntaxes.c:29-51) recognizes. -/
def recognizedExts : List (List Char) :=
  ["rs", "c", "h", "cpp", "hpp", "js", "jsx", "ts", "tsx",
   "go", "py", "java", "php", "rb"].map String.data

/-- The `g'` extends `g` by stacking zero or more nodes in front of the old head:
what every merge of the crawl does to the graph list. -/
def ExtendsGraph (g g' : List Dependency) : Prop := ∃ pre, g' = pre ++ g

/-- Every METHOD-layer node of the graph carries a non-empty methods list and
a `method_count` equal to its length. -/
def methodNodeInvariant (g : List Dependency) : Prop :=
  ∀ d ∈ g, d.level = LAYER_METHOD → d.methods ≠ [] ∧ d.method_count = d.methods.length

theorem langOfExtLower_unrecognized (e : List Char) (h : e ∉ recognizedExts) :
    langOfExtLower e = LANG_RUST := by
  simp only [recognizedExts, List.map_cons, List.map_nil, List.mem_cons,
    List.not_mem_nil, or_false, not_or] at h
  unfold langOfExtLower
  split_ifs <;> tauto

/-- C3: `languageType` is a pure, total function of the path's final extension
compared case-insensitively (truncated to the 31-char comparison buffer):
paths with the same lowercased extension classify identically, a missing
extension and an unrecognized extension both return the default `LANG_RUST`,
and the recognized extensions map to their languages. -/
theorem languageType_pure_extension_classifier :
    (∀ p q : String,
        (extAfterLastDot p).map extLowerBuf = (extAfterLastDot q).map extLowerBuf →
        languageType p = languageType q) ∧
    (∀ p : String, extAfterLastDot p = none → languageType p = LANG_RUST) ∧
    (∀ (p : String) (e : List Char), extAfterLastDot p = some e →
        extLowerBuf e ∉ recognizedExts → languageType p = LANG_RUST) ∧
    languageType "m.rs" = LANG_RUST ∧
    languageType "m.c" = LANG_C ∧ languageType "m.h" = LANG_C ∧
    languageType "m.CPP" = LANG_C ∧ languageType "m.hpp" = LANG_C ∧
    languageType "m.py" = LANG_PYTHON := by
  refine ⟨?_, ?_, ?_, by decide, by decide, by decide, by decide, by decide, by decide⟩
  · intro p q h
    unfold languageType
    cases hp : extAfterLastDot p <;> cases hq : extAfterLastDot q <;>
      rw [hp, hq] at h <;> simp_all
  · intro p hp
    unfold languageType
    rw [hp]
  · intro p e hp he
    unfold languageType
    rw [hp]
    exact langOfExtLower_unrecognized _ he

theorem languageType_classifier_witness :
    languageType "x.RS" = languageType "y.rs" ∧
    languageType "Makefile" = LANG_RUST ∧
    languageType "a.weird" = LANG_RUST :=
  ⟨languageType_pure_extension_classifier.1 "x.RS" "y.rs" (by decide),
   languageType_pure_extension_classifier.2.1 "Makefile" (by decide),
   languageType_pure_extension_classifier.2.2.1 "a.weird" "weird".data
     (by decide) (by decide)⟩

theorem string_foldl_append (l : List String) :
    ∀ a b : String, l.foldl (fun x y => x ++ y) (a ++ b) = a ++ l.foldl (fun x y => x ++ y) b := by
  induction l with
  | nil => intro a b; rfl
  | cons s t ih =>
    intro a b
    show t.foldl (fun x y => x ++ y) (a ++ b ++ s) = a ++ t.foldl (fun x y => x ++ y) (b ++ s)
    rw [String.append_assoc, ih]

theorem string_join_cons (s : String) (l : List String) :
    String.join (s :: l) = s ++ String.join l := by
  show l.foldl (fun x y => x ++ y) ("" ++ s) = s ++ l.foldl (fun x y => x ++ y) ""
  have h : "" ++ s = s ++ "" := by simp
  rw [h, string_foldl_append]

theorem dot_foldl_join (l : List Relationship) :
    ∀ init : String,
      l.foldl (fun acc r => acc ++ dotLine r) init = init ++ String.join (l.map dotLine) := by
  induction l with
  | nil => intro init; show init = init ++ String.join []; simp [String.join]
  | cons r t ih =>
    intro init
    show t.foldl (fun acc x => acc ++ dotLine x) (init ++ dotLine r) =
      init ++ String.join (dotLine r :: t.map dotLine)
    rw [ih, string_join_cons, String.append_assoc]

/-- C5: the bytes `exportGraph` writes for format `"dot"` are exactly the
header line, one `  "from" -> "to" [label="kind"];` line per relationship in
stored order, and the closing brace line; in particular the one-relationship
graph `(A, B, imports, MODULE)` produces the exact byte string of the spec. -/
theorem exportGraphDot_bytes :
    exportGraphDot ⟨[⟨"A", "B", "imports", LAYER_MODULE⟩]⟩ =
      "digraph Dependencies \x7b\n  \"A\" -> \"B\" [label=\"imports\"];\n\x7d\n" ∧
    ∀ g : DependencyGraph,
      exportGraphDot g =
        "digraph Dependencies \x7b\n" ++ String.join (g.relationships.map dotLine) ++ "\x7d\n" := by
  constructor
  · rfl
  · intro g
    unfold exportGraphDot
    rw [dot_foldl_join]

/-- C2: one resolver step on a module record whose non-null `target` occurs
inside the structure's non-null `dependencies` rewrites the dependencies to
`"<module-file-path>:<original>"`, and one full pass over the single module
record `(file="a.ext", target="Base")` rewrites dependency text `"Base"` to
`"a.ext:Base"`. -/
theorem resolver_rewrites_dependencies :
    (∀ (s : Structure) (m : ModuleRecord) (t d : String),
        m.target = some t → s.dependencies = some d →
        strstrB d.data t.data = true →
        resolveStep s m =
          { s with dependencies := some ((m.file_path.getD "") ++ ":" ++ d) }) ∧
    resolvePass [{ file_path := some "a.ext", target := some "Base" }]
        { name := "S", dependencies := some "Base" } =
      { name := "S", dependencies := some "a.ext:Base" } := by
  constructor
  · intro s m t d hm hd hs
    unfold resolveStep
    rw [hm, hd]
    simp [hs]
  · decide

theorem resolver_rewrites_witness :
    resolveStep { name := "S", dependencies := some "Base" }
        { file_path := some "a.ext", target := some "Base" } =
      { name := "S", dependencies := some "a.ext:Base" } :=
  resolver_rewrites_dependencies.1
    { name := "S", dependencies := some "Base" }
    { file_path := some "a.ext", target := some "Base" }
    "Base" "Base" rfl rfl (by decide)

/-- C1: merging into an empty graph makes the new node the root; merging into
a non-empty graph prepends, so the new node is the head and its `next` (the
tail of the list) is the previous head.  Stated for the module/structure merge
path `addToGraph` and for the method merge `graphMethods`. -/
theorem graph_merge_prepends :
    (∀ d : ExtractedDependency, addToGraph [] d = [nodeOfExtracted d]) ∧
    (∀ (g : List Dependency) (d : ExtractedDependency), g ≠ [] →
        addToGraph g d = nodeOfExtracted d :: g) ∧
    (∀ (p : String) (ms : List Method), ms ≠ [] →
        graphMethods [] p ms = [methodNode p ms]) ∧
    (∀ (g : List Dependency) (p : String) (ms : List Method), ms ≠ [] → g ≠ [] →
        graphMethods g p ms = methodNode p ms :: g) := by
  refine ⟨fun d => rfl, ?_, ?_, ?_⟩
  · intro g d hg
    cases g with
    | nil => exact absurd rfl hg
    | cons a t => rfl
  · intro p ms hm
    cases ms with
    | nil => exact absurd rfl hm
    | cons a t => rfl
  · intro g p ms hm hg
    cases ms with
    | nil => exact absurd rfl hm
    | cons a t =>
      cases g with
      | nil => exact absurd rfl hg
      | cons b u => rfl

theorem graph_merge_prepends_witness :
    addToGraph [methodNode "a.c" [{ name := "f", return_type := none, dependencies := none }]]
        { file_path := "b.c", target := some "m", module_name := none,
          structures := [], methods := [], layer := LAYER_MODULE } =
      nodeOfExtracted
          { file_path := "b.c", target := some "m", module_name := none,
            structures := [], methods := [], layer := LAYER_MODULE } ::
        [methodNode "a.c" [{ name := "f", return_type := none, dependencies := none }]] ∧
    graphMethods [] "a.c" [{ name := "f", return_type := none, dependencies := none }] =
      [methodNode "a.c" [{ name := "f", return_type := none, dependencies := none }]] ∧
    graphMethods [methodNode "a.c" [{ name := "f", return_type := none, dependencies := none }]]
        "b.c" [{ name := "g", return_type := none, dependencies := none }] =
      methodNode "b.c" [{ name := "g", return_type := none, dependencies := none }] ::
        [methodNode "a.c" [{ name := "f", return_type := none, dependencies := none }]] :=
  ⟨graph_merge_prepends.2.1 _ _ (by decide),
   graph_merge_prepends.2.2.1 "a.c" _ (by decide),
   graph_merge_prepends.2.2.2 _ "b.c" _ (by decide) (by decide)⟩

/-- C4: every relationship `create_dependency_graph` produces carries the
relationship kind of the layer of the record that produced it — "imports"
with `LAYER_MODULE`, "inherits" with `LAYER_STRUCT`, "calls" with
`LAYER_METHOD` — and its `layer` field is that originating layer. -/
theorem create_dependency_graph_kinds :
    ∀ (deps : List ExtractedDependency) (g : DependencyGraph),
      create_dependency_graph deps = some g →
      ∀ r ∈ g.relationships,
        (r.relationship_type = "imports" ∧ r.layer = LAYER_MODULE) ∨
        (r.relationship_type = "inherits" ∧ r.layer = LAYER_STRUCT) ∨
        (r.relationship_type = "calls" ∧ r.layer = LAYER_METHOD) := by
  intro deps g h r hr
  unfold create_dependency_graph at h
  split at h
  · exact absurd h (by simp)
  · rw [Option.some_inj] at h
    subst h
    rw [List.mem_flatten] at hr
    obtain ⟨ls, hls, hrl⟩ := hr
    rw [List.mem_map] at hls
    obtain ⟨dep, _, rfl⟩ := hls
    unfold relsOfDep at hrl
    rw [List.mem_append, List.mem_append] at hrl
    rcases hrl with (h1 | h2) | h3
    · cases hm : dep.module_name with
      | none => rw [hm] at h1; simp at h1
      | some m =>
        rw [hm] at h1
        simp only [List.mem_singleton] at h1
        subst h1
        exact Or.inl ⟨rfl, rfl⟩
    · rw [List.mem_filterMap] at h2
      obtain ⟨s, _, hs⟩ := h2
      cases hd : s.dependencies with
      | none => rw [hd] at hs; simp at hs
      | some d =>
        rw [hd] at hs
        simp only [Option.map_some', Option.some_inj] at hs
        subst hs
        exact Or.inr (Or.inl ⟨rfl, rfl⟩)
    · rw [List.mem_filterMap] at h3
      obtain ⟨mth, _, hs⟩ := h3
      cases hd : mth.dependencies with
      | none => rw [hd] at hs; simp at hs
      | some d =>
        rw [hd] at hs
        simp only [Option.map_some', Option.some_inj] at hs
        subst hs
        exact Or.inr (Or.inr ⟨rfl, rfl⟩)

theorem create_dependency_graph_kinds_witness :
    (("inherits" : String) = "imports" ∧ LAYER_STRUCT = LAYER_MODULE) ∨
    (("inherits" : String) = "inherits" ∧ LAYER_STRUCT = LAYER_STRUCT) ∨
    (("inherits" : String) = "calls" ∧ LAYER_STRUCT = LAYER_METHOD) :=
  create_dependency_graph_kinds
    [{ file_path := "f.rs", target := none, module_name := some "m",
       structures := [{ name := "S", dependencies := some "B" }],
       methods := [{ name := "g", return_type := none, dependencies := some "h" }],
       layer := LAYER_MODULE }]
    ⟨[⟨"f.rs", "m", "imports", LAYER_MODULE⟩,
      ⟨"S", "B", "inherits", LAYER_STRUCT⟩,
      ⟨"g", "h", "calls", LAYER_METHOD⟩]⟩
    (by decide)
    ⟨"S", "B", "inherits", LAYER_STRUCT⟩
    (by decide)

theorem extAfterLastDot_eq_none (p : String) (h : '.' ∉ p.data) :
    extAfterLastDot p = none := by
  unfold extAfterLastDot
  rw [if_neg]
  simp only [List.contains, List.elem_iff, List.mem_reverse]
  exact h

/-- C9: `processFile` on a path with no `'.'` character leaves the graph
unchanged for every extractor, configuration, readability and content — the
file is never read and no extractor runs — even though `languageType` would
have classified such a path as the default `LANG_RUST`. -/
theorem processFile_skips_no_extension :
    ∀ p : String, '.' ∉ p.data →
      (∀ (E : Extractors) (cfg : AnalysisConfig) (r : Bool) (c : String)
          (g : List Dependency), processFile E cfg p r c g = g) ∧
      languageType p = LANG_RUST := by
  intro p h
  have he := extAfterLastDot_eq_none p h
  constructor
  · intro E cfg r c g
    unfold processFile
    rw [he]
  · unfold languageType
    rw [he]

theorem processFile_skips_no_extension_witness :
    processFile noExtractors defaultAnalysisConfig "Makefile" true "all:" [] = [] ∧
    languageType "Makefile" = LANG_RUST :=
  ⟨(processFile_skips_no_extension "Makefile" (by decide)).1
      noExtractors defaultAnalysisConfig true "all:" [],
   (processFile_skips_no_extension "Makefile" (by decide)).2⟩

/-- C7: a file whose extension is on the denylist (".json", ".txt", ".md",
".yml", ...) is never processed and contributes nothing to the graph, and
crawling a directory holding one recognized source file and one ".json" file
runs the extraction pipeline exactly once, on the recognized file. -/
theorem denylisted_extensions_skipped :
    (∀ (p : String) (ext : List Char), extAfterLastDot p = some ext →
        denylistExts.contains (ext.map lowerChar) = true →
        ∀ (E : Extractors) (cfg : AnalysisConfig) (r : Bool) (c : String)
          (g : List Dependency), processFile E cfg p r c g = g) ∧
    (∀ (E : Extractors) (cfg : AnalysisConfig) (cs cj : String) (g : List Dependency),
        crawlDir E cfg "d"
          (.dir true (.cons "a.py" (.file true cs)
            (.cons "b.json" (.file true cj) .nil))) g =
          processLayer E cfg "d/a.py" cs LANG_PYTHON g) := by
  constructor
  · intro p ext hext hcon E cfg r c g
    unfold processFile
    rw [hext]
    simp only [hcon]
    simp
  · intro E cfg cs cj g
    have h4 : extAfterLastDot "d/a.py" = some "py".data := by decide
    have h6 : languageType "d/a.py" = LANG_PYTHON := by decide
    have h8 : extAfterLastDot "d/b.json" = some "json".data := by decide
    simp [crawlDir, crawlEntries, processFile, h4, h6, h8, denylistExts,
      denylistDirs, baseName, startsWithDot, lowerChar]

theorem denylisted_extensions_witness :
    processFile noExtractors defaultAnalysisConfig "b.json" true "x" [] = [] :=
  denylisted_extensions_skipped.1 "b.json" "json".data (by decide) (by decide)
    noExtractors defaultAnalysisConfig true "x" []

theorem extends_refl (g : List Dependency) : ExtendsGraph g g := ⟨[], rfl⟩

theorem extends_trans {g1 g2 g3 : List Dependency}
    (h12 : ExtendsGraph g1 g2) (h23 : ExtendsGraph g2 g3) : ExtendsGraph g1 g3 := by
  obtain ⟨p, rfl⟩ := h12
  obtain ⟨q, rfl⟩ := h23
  exact ⟨q ++ p, (List.append_assoc q p g1).symm⟩

theorem addToGraph_extends (g : List Dependency) (d : ExtractedDependency) :
    ExtendsGraph g (addToGraph g d) := by
  cases g with
  | nil => exact ⟨[create_dependency_from_extracted d], rfl⟩
  | cons a t => exact ⟨[nodeOfExtracted d], rfl⟩

theorem foldl_extends {α : Type} (step : List Dependency → α → List Dependency)
    (hstep : ∀ g a, ExtendsGraph g (step g a)) :
    ∀ (l : List α) (g : List Dependency), ExtendsGraph g (l.foldl step g) := by
  intro l
  induction l with
  | nil => intro g; exact extends_refl g
  | cons a t ih => intro g; exact extends_trans (hstep g a) (ih (step g a))

theorem graphMethods_extends (g : List Dependency) (p : String) (ms : List Method) :
    ExtendsGraph g (graphMethods g p ms) := by
  cases ms with
  | nil => exact extends_refl g
  | cons m t =>
    cases g with
    | nil => exact ⟨[methodNode p (m :: t)], rfl⟩
    | cons b u => exact ⟨[methodNode p (m :: t)], rfl⟩

theorem moduleStage_extends (E : Extractors) (cfg : AnalysisConfig)
    (f c : String) (l : LanguageType) (g : List Dependency) :
    ExtendsGraph g (moduleStage E cfg f c l g) := by
  unfold moduleStage
  split
  · exact foldl_extends _ (fun g r => addToGraph_extends g _) _ g
  · exact extends_refl g

theorem structStage_extends (E : Extractors) (cfg : AnalysisConfig)
    (f c : String) (l : LanguageType) (g : List Dependency) :
    ExtendsGraph g (structStage E cfg f c l g) := by
  unfold structStage
  split
  · split
    · exact extends_refl g
    · exact addToGraph_extends g _
  · exact extends_refl g

theorem methodStage_extends (E : Extractors) (cfg : AnalysisConfig)
    (f c : String) (l : LanguageType) (g : List Dependency) :
    ExtendsGraph g (methodStage E cfg f c l g) := by
  unfold methodStage
  split
  · split
    · exact extends_refl g
    · exact graphMethods_extends g f _
  · exact extends_refl g

theorem processLayer_extends (E : Extractors) (cfg : AnalysisConfig)
    (f c : String) (l : LanguageType) (g : List Dependency) :
    ExtendsGraph g (processLayer E cfg f c l g) :=
  extends_trans (moduleStage_extends E cfg f c l g)
    (extends_trans (structStage_extends E cfg f c l _)
      (methodStage_extends E cfg f c l _))

theorem processFile_extends (E : Extractors) (cfg : AnalysisConfig)
    (p : String) (r : Bool) (c : String) (g : List Dependency) :
    ExtendsGraph g (processFile E cfg p r c g) := by
  unfold processFile
  split
  · exact extends_refl g
  · split
    · exact extends_refl g
    · split
      · exact extends_refl g
      · exact processLayer_extends E cfg p c _ g

theorem processFile_unreadable (E : Extractors) (cfg : AnalysisConfig)
    (p c : String) (g : List Dependency) :
    processFile E cfg p false c g = g := by
  unfold processFile
  split
  · rfl
  · split
    · rfl
    · split
      · rfl
      · simp_all

mutual

theorem crawlDir_extends (E : Extractors) (cfg : AnalysisConfig) :
    ∀ (p : String) (e : FSEntry) (g : List Dependency),
      ExtendsGraph g (crawlDir E cfg p e g)
  | p, .statFail, g => by
    simp only [crawlDir]
    exact extends_refl g
  | p, .file r c, g => by
    simp only [crawlDir]
    exact processFile_extends E cfg p r c g
  | p, .other, g => by
    simp only [crawlDir]
    exact extends_refl g
  | p, .dir op es, g => by
    simp only [crawlDir]
    split
    · exact extends_refl g
    · split
      · exact extends_refl g
      · exact crawlEntries_extends E cfg p es g

theorem crawlEntries_extends (E : Extractors) (cfg : AnalysisConfig) :
    ∀ (p : String) (es : EntryList) (g : List Dependency),
      ExtendsGraph g (crawlEntries E cfg p es g)
  | p, .nil, g => by
    simp only [crawlEntries]
    exact extends_refl g
  | p, .cons n e rest, g => by
    simp only [crawlEntries]
    refine extends_trans ?_ (crawlEntries_extends E cfg p rest _)
    split
    · exact extends_refl g
    · exact crawlDir_extends E cfg (p ++ "/" ++ n) e g

end

theorem crawlDeps_extends (E : Extractors) (cfg : AnalysisConfig) :
    ∀ (roots : List (String × FSEntry)) (g : List Dependency),
      ExtendsGraph g (crawlDeps E cfg roots g) := by
  intro roots
  unfold crawlDeps
  exact foldl_extends _ (fun g r => crawlDir_extends E cfg r.1 r.2 g) roots

/-- C6: a path whose `stat` fails, a directory whose `opendir` fails, and a
file whose `fopen` fails are each skipped with the graph untouched; a failing
entry inside a directory leaves the rest of the entries crawled, a failing
root leaves the rest of the roots crawled; and every crawl only stacks new
nodes in front of the existing graph, so previously merged results remain. -/
theorem crawl_skips_failures :
    (∀ (E : Extractors) (cfg : AnalysisConfig) (p : String) (g : List Dependency),
        crawlDir E cfg p .statFail g = g) ∧
    (∀ (E : Extractors) (cfg : AnalysisConfig) (p : String) (es : EntryList)
        (g : List Dependency), crawlDir E cfg p (.dir false es) g = g) ∧
    (∀ (E : Extractors) (cfg : AnalysisConfig) (p c : String) (g : List Dependency),
        crawlDir E cfg p (.file false c) g = g) ∧
    (∀ (E : Extractors) (cfg : AnalysisConfig) (p n : String) (rest : EntryList)
        (g : List Dependency),
        crawlEntries E cfg p (.cons n .statFail rest) g = crawlEntries E cfg p rest g) ∧
    (∀ (E : Extractors) (cfg : AnalysisConfig) (r : String)
        (roots : List (String × FSEntry)) (g : List Dependency),
        crawlDeps E cfg ((r, .statFail) :: roots) g = crawlDeps E cfg roots g) ∧
    (∀ (E : Extractors) (cfg : AnalysisConfig) (p : String) (e : FSEntry)
        (g : List Dependency), ExtendsGraph g (crawlDir E cfg p e g)) ∧
    (∀ (E : Extractors) (cfg : AnalysisConfig) (roots : List (String × FSEntry))
        (g : List Dependency), ExtendsGraph g (crawlDeps E cfg roots g)) := by
  have hstat : ∀ (E : Extractors) (cfg : AnalysisConfig) (p : String) (g : List Dependency),
      crawlDir E cfg p .statFail g = g := by
    intro E cfg p g
    simp only [crawlDir]
  refine ⟨hstat, ?_, ?_, ?_, ?_, crawlDir_extends, crawlDeps_extends⟩
  · intro E cfg p es g
    simp only [crawlDir]
    simp
  · intro E cfg p c g
    simp only [crawlDir]
    exact processFile_unreadable E cfg p c g
  · intro E cfg p n rest g
    simp only [crawlEntries]
    rw [hstat, ite_self]
  · intro E cfg r roots g
    unfold crawlDeps
    simp only [List.foldl_cons]
    rw [hstat]

theorem processFile_max_depth (E : Extractors) (cfg : AnalysisConfig) (d : Int)
    (p : String) (r : Bool) (c : String) (g : List Dependency) :
    processFile E { cfg with max_depth := d } p r c g = processFile E cfg p r c g := rfl

mutual

theorem crawlDir_max_depth (E : Extractors) (cfg : AnalysisConfig) (d : Int) :
    ∀ (p : String) (e : FSEntry) (g : List Dependency),
      crawlDir E { cfg with max_depth := d } p e g = crawlDir E cfg p e g
  | p, .statFail, g => by simp only [crawlDir]
  | p, .file r c, g => by
    simp only [crawlDir]
    exact processFile_max_depth E cfg d p r c g
  | p, .other, g => by simp only [crawlDir]
  | p, .dir op es, g => by
    simp only [crawlDir]
    split
    · rfl
    · split
      · rfl
      · exact crawlEntries_max_depth E cfg d p es g

theorem crawlEntries_max_depth (E : Extractors) (cfg : AnalysisConfig) (d : Int) :
    ∀ (p : String) (es : EntryList) (g : List Dependency),
      crawlEntries E { cfg with max_depth := d } p es g = crawlEntries E cfg p es g
  | p, .nil, g => by simp only [crawlEntries]
  | p, .cons n e rest, g => by
    simp only [crawlEntries]
    rw [crawlEntries_max_depth E cfg d p rest]
    congr 1
    split
    · rfl
    · exact crawlDir_max_depth E cfg d (p ++ "/" ++ n) e g

end

/-- C8: two configurations that differ only in `max_depth` crawl the same
tree to the same graph — the recursive walk never consults the configured
max-depth. -/
theorem crawl_ignores_max_depth :
    ∀ (E : Extractors) (cfg : AnalysisConfig) (d : Int)
      (roots : List (String × FSEntry)) (g : List Dependency),
      crawlDeps E { cfg with max_depth := d } roots g = crawlDeps E cfg roots g := by
  intro E cfg d roots
  unfold crawlDeps
  induction roots with
  | nil => intro g; rfl
  | cons r rest ih =>
    intro g
    simp only [List.foldl_cons]
    rw [crawlDir_max_depth E cfg d r.1 r.2 g]
    exact ih _

theorem methodNodeInvariant_nil : methodNodeInvariant [] := by
  intro d hd
  exact absurd hd (List.not_mem_nil d)

theorem methodNodeInvariant_cons {d : Dependency} {g : List Dependency}
    (hd : d.level = LAYER_METHOD → d.methods ≠ [] ∧ d.method_count = d.methods.length)
    (hg : methodNodeInvariant g) : methodNodeInvariant (d :: g) := by
  intro x hx
  rcases List.mem_cons.mp hx with rfl | hx
  · exact hd
  · exact hg x hx

theorem addToGraph_inv {g : List Dependency} {d : ExtractedDependency}
    (hlayer : d.layer ≠ LAYER_METHOD) (hg : methodNodeInvariant g) :
    methodNodeInvariant (addToGraph g d) := by
  have h : addToGraph g d = nodeOfExtracted d :: g := by cases g <;> rfl
  rw [h]
  exact methodNodeInvariant_cons (fun hl => absurd hl hlayer) hg

theorem graphMethods_inv {g : List Dependency} (p : String) (ms : List Method)
    (hg : methodNodeInvariant g) : methodNodeInvariant (graphMethods g p ms) := by
  cases ms with
  | nil => exact hg
  | cons m t =>
    have h : graphMethods g p (m :: t) = methodNode p (m :: t) :: g := by
      cases g <;> rfl
    rw [h]
    refine methodNodeInvariant_cons (fun _ => ⟨by simp [methodNode], rfl⟩) hg

theorem foldl_inv {α : Type} (step : List Dependency → α → List Dependency)
    (hstep : ∀ g a, methodNodeInvariant g → methodNodeInvariant (step g a)) :
    ∀ (l : List α) (g : List Dependency),
      methodNodeInvariant g → methodNodeInvariant (l.foldl step g) := by
  intro l
  induction l with
  | nil => intro g hg; exact hg
  | cons a t ih => intro g hg; exact ih (step g a) (hstep g a hg)

theorem processLayer_inv (E : Extractors) (cfg : AnalysisConfig)
    (f c : String) (l : LanguageType) {g : List Dependency}
    (hg : methodNodeInvariant g) : methodNodeInvariant (processLayer E cfg f c l g) := by
  unfold processLayer
  have h1 : methodNodeInvariant (moduleStage E cfg f c l g) := by
    unfold moduleStage
    split
    · exact foldl_inv _ (fun g r hg => addToGraph_inv (by simp) hg) _ g hg
    · exact hg
  have h2 : methodNodeInvariant (structStage E cfg f c l (moduleStage E cfg f c l g)) := by
    unfold structStage
    split
    · split
      · exact h1
      · exact addToGraph_inv (by simp) h1
    · exact h1
  unfold methodStage
  split
  · split
    · exact h2
    · exact graphMethods_inv f _ h2
  · exact h2

theorem processFile_inv (E : Extractors) (cfg : AnalysisConfig)
    (p : String) (r : Bool) (c : String) {g : List Dependency}
    (hg : methodNodeInvariant g) : methodNodeInvariant (processFile E cfg p r c g) := by
  unfold processFile
  split
  · exact hg
  · split
    · exact hg
    · split
      · exact hg
      · exact processLayer_inv E cfg p c _ hg

mutual

theorem crawlDir_inv (E : Extractors) (cfg : AnalysisConfig) :
    ∀ (p : String) (e : FSEntry) (g : List Dependency),
      methodNodeInvariant g → methodNodeInvariant (crawlDir E cfg p e g)
  | p, .statFail, g, hg => by
    simp only [crawlDir]
    exact hg
  | p, .file r c, g, hg => by
    simp only [crawlDir]
    exact processFile_inv E cfg p r c hg
  | p, .other, g, hg => by
    simp only [crawlDir]
    exact hg
  | p, .dir op es, g, hg => by
    simp only [crawlDir]
    split
    · exact hg
    · split
      · exact hg
      · exact crawlEntries_inv E cfg p es g hg

theorem crawlEntries_inv (E : Extractors) (cfg : AnalysisConfig) :
    ∀ (p : String) (es : EntryList) (g : List Dependency),
      methodNodeInvariant g → methodNodeInvariant (crawlEntries E cfg p es g)
  | p, .nil, g, hg => by
    simp only [crawlEntries]
    exact hg
  | p, .cons n e rest, g, hg => by
    simp only [crawlEntries]
    refine crawlEntries_inv E cfg p rest _ ?_
    split
    · exact hg
    · exact crawlDir_inv E cfg (p ++ "/" ++ n) e g hg

end

/-- C10: `graphMethods` on an empty methods list is a no-op (the `!methods`
guard; NULL crawler/file-path arguments are not representable in this
embedding), and every crawl-produced graph satisfies the METHOD-node
invariant: each METHOD-layer node owns a non-empty methods list whose stored
`method_count` equals its length. -/
theorem method_nodes_well_formed :
    (∀ (g : List Dependency) (p : String), graphMethods g p [] = g) ∧
    (∀ (E : Extractors) (cfg : AnalysisConfig) (roots : List (String × FSEntry))
        (g : List Dependency),
        methodNodeInvariant g → methodNodeInvariant (crawlDeps E cfg roots g)) ∧
    (∀ (E : Extractors) (cfg : AnalysisConfig) (roots : List (String × FSEntry)),
        methodNodeInvariant (crawlDeps E cfg roots [])) := by
  have hpres : ∀ (E : Extractors) (cfg : AnalysisConfig)
      (roots : List (String × FSEntry)) (g : List Dependency),
      methodNodeInvariant g → methodNodeInvariant (crawlDeps E cfg roots g) := by
    intro E cfg roots g hg
    unfold crawlDeps
    exact foldl_inv _ (fun g r hg => crawlDir_inv E cfg r.1 r.2 g hg) roots g hg
  refine ⟨fun g p => rfl, hpres, ?_⟩
  intro E cfg roots
  exact hpres E cfg roots [] methodNodeInvariant_nil

theorem method_nodes_well_formed_witness :
    graphMethods [] "a.c" [] = [] ∧
    methodNodeInvariant (crawlDeps noExtractors defaultAnalysisConfig
      [("d", .dir true (.cons "a.py" (.file true "x = 1") .nil))] []) :=
  ⟨method_nodes_well_formed.1 [] "a.c",
   method_nodes_well_formed.2.1 noExtractors defaultAnalysisConfig
     [("d", .dir true (.cons "a.py" (.file true "x = 1") .nil))] []
     methodNodeInvariant_nil⟩

end Crawler
